import Mathlib

/-!
Shallow embedding of `backend/backend_app.py`, a Flask blog-post API.

The mutable global `POSTS` is a Python list of dicts.  We model a post
(dict) as an association list `List (String × JValue)` preserving key
order (Python dicts preserve insertion order), and the store as
`List Dict`.  Each Flask handler becomes a pure function taking the
current store (and the request data that the handler reads) and
returning the HTTP `Response` it produces, paired with the store value
after the call for the mutating handlers.
-/

/-- A JSON scalar as it occurs in this program: post ids are integers,
titles and contents are strings. -/
inductive JValue where
  | int (n : Int)
  | str (s : String)
deriving DecidableEq, Repr

abbrev Dict := List (String × JValue)

/-- Python `d[k]` / `d.get(k)`: the value bound to key `k` (first
binding; dict keys are unique). -/
def getVal? (d : Dict) (k : String) : Option JValue :=
  match d with
  | [] => none
  | (k', v) :: rest => if k' = k then some v else getVal? rest k

/-- Python `k in d`. -/
def hasField (d : Dict) (k : String) : Bool :=
  (getVal? d k).isSome

/-- Python `d[k] = v`: replaces the value in place when the key is
present (key order unchanged), appends a new binding otherwise. -/
def setVal (d : Dict) (k : String) (v : JValue) : Dict :=
  match d with
  | [] => [(k, v)]
  | (k', v') :: rest => if k' = k then (k', v) :: rest else (k', v') :: setVal rest k v

/-- The body of a JSON response, one constructor per `jsonify` shape the
handlers produce. -/
inductive Body where
  | posts (l : List Dict)
  | post (p : Dict)
  | message (m : String)
  | error (e : String)
  | errorMissing (e : String) (missing_fields : List String)
deriving DecidableEq, Repr

/-- A Flask `(jsonify(...), status)` pair. -/
structure Response where
  body : Body
  status : Nat
deriving DecidableEq, Repr

/-- The module-level seed value of `POSTS`. -/
def seedPosts : List Dict :=
  [[("id", .int 1), ("title", .str "First post"), ("content", .str "This is the first post.")],
   [("id", .int 2), ("title", .str "Second post"), ("content", .str "This is the second post.")]]

/-- Lexicographic comparison of strings by Unicode code point, i.e.
Python `s <= t` on `str` (kept on `List Char` so it computes in the
kernel). -/
def charListLe : List Char → List Char → Bool
  | [], _ => true
  | _ :: _, [] => false
  | c :: cs, d :: ds => if c = d then charListLe cs ds else decide (c < d)

/-- Python `<=` on the values this program sorts by.  Same-type
comparisons follow Python exactly (integer order, code-point
lexicographic string order).  A mixed int/str comparison raises
`TypeError` in Python; it is unreachable for well-formed stores (every
reachable post has an integer `id` and string `title`/`content`), and
the model totalises it arbitrarily as int-before-str. -/
def JValue.le : JValue → JValue → Bool
  | .int m, .int n => decide (m ≤ n)
  | .str s, .str t => charListLe s.data t.data
  | .int _, .str _ => true
  | .str _, .int _ => false

/-- The sort key `lambda post: post[sort_by]`.  Python raises `KeyError`
when the key is missing; `get_posts` guards the sort with the
corresponding presence check, so the default is never consulted. -/
def sortKey (sort_by : String) (post : Dict) : JValue :=
  (getVal? post sort_by).getD (.int 0)

/-- The comparison `sorted(..., key=..., reverse=reverse)` sorts by:
the CPython sort is stable ascending on the key, and `reverse=True`
yields the stable descending order (equal keys keep their original
relative order in both cases), which is exactly `List.mergeSort` under
this relation. -/
def postLe (sort_by : String) (reverse : Bool) (p q : Dict) : Bool :=
  if reverse then JValue.le (sortKey sort_by q) (sortKey sort_by p)
  else JValue.le (sortKey sort_by p) (sortKey sort_by q)

/-- Handler `get_posts` (GET /api/posts).  `sort_by` is `none` when the
query parameter is absent; `order` defaults to "asc" at the call site.
After the membership test, the Python test `if sort_by:` is true exactly when
`sort_by` is not `None` (the empty string is already rejected by the
membership test).  Python applies the sort key to every element, so the
`KeyError` branch is taken iff some post lacks the field.  The handler
reads `POSTS` and never writes it, so it returns only a `Response`. -/
def get_posts (store : List Dict) (sort_by : Option String) (order : String) : Response :=
  if sort_by ∉ ([none, some "id", some "title", some "content"] : List (Option String)) then
    ⟨.error "Invalid sort_by field. Must be \x27id\x27, \x27title\x27, or \x27content\x27.", 400⟩
  else
    match sort_by with
    | some f =>
      let reverse := order == "desc"
      if store.all (fun post => hasField post f) then
        ⟨.posts (store.mergeSort (postLe f reverse)), 200⟩
      else
        ⟨.error ("Cannot sort by \x27" ++ f ++ "\x27. Field does not exist."), 400⟩
    | none => ⟨.posts store, 200⟩

/-- The id value of a post.  Python reads `post["id"]` (raising
`KeyError`/`TypeError` on a missing or non-integer id, unreachable for
reachable stores); the default 0 is never consulted there. -/
def idInt (post : Dict) : Int :=
  match getVal? post "id" with
  | some (.int n) => n
  | _ => 0

/-- The generator maximum `max(post["id"] for post in POSTS)`.  The
Python `max` raises on an empty sequence; `add_post` guards the call with `if POSTS`. -/
def maxId : List Dict → Int
  | [] => 0
  | [post] => idInt post
  | post :: rest => max (idInt post) (maxId rest)

/-- The id assignment `max(post["id"] for post in POSTS) + 1 if POSTS else 1`. -/
def newId (store : List Dict) : Int :=
  match store with
  | [] => 1
  | _ => maxId store + 1

/-- The `OrderedDict` literal `add_post` builds: field order id, title,
content.  The two lookups `data["title"]`/`data["content"]` are guarded
by the missing-field check, so their defaults are never consulted. -/
def newPost (store : List Dict) (data : Dict) : Dict :=
  [("id", .int (newId store)),
   ("title", (getVal? data "title").getD (.str "")),
   ("content", (getVal? data "content").getD (.str ""))]

/-- Handler `add_post` (POST /api/posts).  `data` is the parsed JSON
request body. -/
def add_post (store : List Dict) (data : Dict) : Response × List Dict :=
  let missing_fields := ["title", "content"].filter (fun field => !hasField data field)
  if !missing_fields.isEmpty then
    (⟨.errorMissing "Missing required fields" missing_fields, 400⟩, store)
  else
    (⟨.post (newPost store data), 201⟩, store ++ [newPost store data])

/-- The test `post["id"] == id` for an integer `id`.  A missing "id" key raises
`KeyError` in Python (unreachable for reachable stores); a non-integer
id value compares unequal, as in Python. -/
def idIs (i : Int) (post : Dict) : Bool :=
  decide (getVal? post "id" = some (.int i))

/-- Python `POSTS.remove(x)`: removes the first element equal to `x`.
dict equality in Python ignores key order, while `=` here does not; the
two coincide on every call made by `delete_post`, because any
Python-equal dict carries the same "id" value, and the removed element
is already the first id match.  `remove` raises `ValueError` when no
element matches; `delete_post` only passes elements of the list. -/
def pyRemove (l : List Dict) (x : Dict) : List Dict :=
  match l with
  | [] => []
  | y :: ys => if y = x then ys else y :: pyRemove ys x

/-- Handler `delete_post` (DELETE /api/posts/(id)). -/
def delete_post (store : List Dict) (id : Int) : Response × List Dict :=
  match store.find? (idIs id) with
  | none => (⟨.error ("Post with id " ++ toString id ++ " not found"), 404⟩, store)
  | some post_to_delete =>
    (⟨.message ("Post with id " ++ toString id ++ " has been deleted successfully."), 200⟩,
     pyRemove store post_to_delete)

/-- In-place mutation of the dict object found inside `POSTS`: the list
keeps the same elements except that the first post satisfying `pred`
(the one `next(...)` returned) now holds the mutated value.  No other
element can alias the mutated object: every post in `POSTS` is a
freshly constructed dict. -/
def replaceFirst (l : List Dict) (pred : Dict → Bool) (q : Dict) : List Dict :=
  match l with
  | [] => []
  | p :: rest => if pred p then q :: rest else p :: replaceFirst rest pred q

/-- The two assignments `post_to_update["title"] = title` and
`post_to_update["content"] = content`, where `title`/`content` are
`data.get(k, post_to_update[k])`.  `Option.getD` models `dict.get` with
a default; the inner default for `post_to_update[k]` stands for
the Python `KeyError` and is never consulted for posts carrying the
key. -/
def mutatePost (post_to_update : Dict) (data : Dict) : Dict :=
  let title := (getVal? data "title").getD ((getVal? post_to_update "title").getD (.str ""))
  let content := (getVal? data "content").getD ((getVal? post_to_update "content").getD (.str ""))
  setVal (setVal post_to_update "title" title) "content" content

/-- The `OrderedDict` literal `update_post` returns, rebuilt from the
fields of the mutated post. -/
def updatedPostBody (mutated : Dict) : Dict :=
  [("id", (getVal? mutated "id").getD (.int 0)),
   ("title", (getVal? mutated "title").getD (.str "")),
   ("content", (getVal? mutated "content").getD (.str ""))]

/-- Handler `update_post` (PUT /api/posts/(post_id)).  `data` is the
parsed JSON request body. -/
def update_post (store : List Dict) (post_id : Int) (data : Dict) : Response × List Dict :=
  match store.find? (idIs post_id) with
  | none => (⟨.error ("Post with id " ++ toString post_id ++ " not found"), 404⟩, store)
  | some post_to_update =>
    (⟨.post (updatedPostBody (mutatePost post_to_update data)), 200⟩,
     replaceFirst store (idIs post_id) (mutatePost post_to_update data))

/-- Python `s.lower()` (ASCII case folding; `Char.toLower`, like
Python, leaves non-cased characters unchanged — the model restricts
full Unicode folding to ASCII). -/
def pyLower (s : String) : String :=
  ⟨s.data.map Char.toLower⟩

/-- Python `sub in s`: contiguous substring containment. -/
def strInStr (sub s : String) : Bool :=
  decide (sub.data <:+: s.data)

/-- The read `post[k]` as a string, as `search_posts` uses it.  A missing key raises
`KeyError` and a non-string value has no `.lower()` in Python; both are
unreachable for well-formed stores, and the model defaults to "". -/
def fieldStr (post : Dict) (k : String) : String :=
  match getVal? post k with
  | some (.str s) => s
  | _ => ""

/-- Handler `search_posts` (GET /api/posts/search).  `title_arg` and
`content_arg` are the query parameters, already defaulted to "" by
`request.args.get(..., "")`.  The Python test `if title_query` is true exactly
when the lowered query is nonempty. -/
def search_posts (store : List Dict) (title_arg content_arg : String) : Response :=
  let title_query := pyLower title_arg
  let content_query := pyLower content_arg
  let filtered_posts := store.filter (fun post =>
    (if title_query ≠ "" then strInStr title_query (pyLower (fieldStr post "title")) else true) &&
    (if content_query ≠ "" then strInStr content_query (pyLower (fieldStr post "content")) else true))
  ⟨.posts filtered_posts, 200⟩

/-- A well-formed post exactly as this program builds them: the three
fields id, title, content in that order, with an integer id and string
title and content. -/
def isWFPost : Dict → Bool
  | [(k1, .int _n), (k2, .str _t), (k3, .str _c)] =>
    k1 == "id" && k2 == "title" && k3 == "content"
  | _ => false

/-- The post carries an integer "id" value. -/
def hasIntId (post : Dict) : Bool :=
  match getVal? post "id" with
  | some (.int _) => true
  | _ => false

/-- The store states reachable from the seed store through the three
mutating handlers (with arbitrary request data; failing calls return
the store unchanged, so they are covered too). -/
inductive Reachable : List Dict → Prop where
  | seed : Reachable seedPosts
  | insert (data : Dict) {s : List Dict} : Reachable s → Reachable (add_post s data).2
  | update (post_id : Int) (data : Dict) {s : List Dict} :
      Reachable s → Reachable (update_post s post_id data).2
  | delete (id : Int) {s : List Dict} : Reachable s → Reachable (delete_post s id).2

/-! ### Order properties of the sort comparisons -/

theorem charListLe_refl (l : List Char) : charListLe l l = true := by
  induction l with
  | nil => rfl
  | cons c cs ih => simp [charListLe, ih]

theorem charListLe_total (a b : List Char) : (charListLe a b || charListLe b a) = true := by
  induction a generalizing b with
  | nil => simp [charListLe]
  | cons c cs ih =>
    cases b with
    | nil => simp [charListLe]
    | cons d ds =>
      by_cases hcd : c = d
      · subst hcd
        simpa [charListLe] using ih ds
      · rcases lt_or_gt_of_ne hcd with h | h
        · simp [charListLe, hcd, h]
        · simp [charListLe, hcd, Ne.symm hcd, h, not_lt_of_gt h]

theorem charListLe_trans (a b c : List Char) (hab : charListLe a b = true)
    (hbc : charListLe b c = true) : charListLe a c = true := by
  induction a generalizing b c with
  | nil => rfl
  | cons x xs ih =>
    cases b with
    | nil => simp [charListLe] at hab
    | cons y ys =>
      cases c with
      | nil => simp [charListLe] at hbc
      | cons z zs =>
        by_cases hxy : x = y <;> by_cases hyz : y = z
        · subst hxy; subst hyz
          simp only [charListLe, if_pos rfl] at hab hbc ⊢
          exact ih ys zs hab hbc
        · subst hxy
          simp only [charListLe, if_pos rfl, if_neg hyz, decide_eq_true_eq] at hbc ⊢
          simp [hyz, hbc]
        · subst hyz
          simp only [charListLe, if_neg hxy, decide_eq_true_eq] at hab
          simp [charListLe, hxy, hab]
        · simp only [charListLe, if_neg hxy, if_neg hyz, decide_eq_true_eq] at hab hbc
          have hxz : x < z := lt_trans hab hbc
          simp [charListLe, ne_of_lt hxz, hxz]

theorem jle_refl (v : JValue) : JValue.le v v = true := by
  cases v with
  | int n => simp [JValue.le]
  | str s => simpa [JValue.le] using charListLe_refl s.data

theorem jle_total (v w : JValue) : (JValue.le v w || JValue.le w v) = true := by
  cases v <;> cases w
  · simp [JValue.le, Int.le_total]
  · simp [JValue.le]
  · simp [JValue.le]
  · simpa [JValue.le] using charListLe_total _ _

theorem jle_trans (u v w : JValue) (h1 : JValue.le u v = true) (h2 : JValue.le v w = true) :
    JValue.le u w = true := by
  cases u <;> cases v <;> cases w <;>
      simp only [JValue.le, decide_eq_true_eq, Bool.false_eq_true] at h1 h2 ⊢
  · omega
  · exact charListLe_trans _ _ _ h1 h2

theorem postLe_total (f : String) (r : Bool) (p q : Dict) :
    (postLe f r p q || postLe f r q p) = true := by
  cases r
  · exact jle_total (sortKey f p) (sortKey f q)
  · exact jle_total (sortKey f q) (sortKey f p)

theorem postLe_trans (f : String) (r : Bool) (p q s : Dict) (h1 : postLe f r p q = true)
    (h2 : postLe f r q s = true) : postLe f r p s = true := by
  cases r
  · exact jle_trans _ _ _ h1 h2
  · exact jle_trans _ _ _ h2 h1

theorem postLe_of_sortKey_eq (f : String) (r : Bool) (p q : Dict)
    (h : sortKey f p = sortKey f q) : postLe f r p q = true := by
  cases r
  · show JValue.le (sortKey f p) (sortKey f q) = true
    rw [h]; exact jle_refl _
  · show JValue.le (sortKey f q) (sortKey f p) = true
    rw [h]; exact jle_refl _

/-! ### Dictionary and list helper lemmas -/

theorem getVal?_setVal_ne (d : Dict) (k k' : String) (v : JValue) (h : k' ≠ k) :
    getVal? (setVal d k' v) k = getVal? d k := by
  induction d with
  | nil => simp [setVal, getVal?, h]
  | cons kv rest ih =>
    obtain ⟨k0, v0⟩ := kv
    by_cases h0 : k0 = k'
    · subst h0
      simp [setVal, getVal?, h]
    · simp only [setVal, if_neg h0, getVal?]
      by_cases h1 : k0 = k
      · simp [h1]
      · simp [h1, ih]

theorem getVal?_mutatePost_id (p data : Dict) :
    getVal? (mutatePost p data) "id" = getVal? p "id" := by
  unfold mutatePost
  rw [getVal?_setVal_ne _ _ _ _ (by decide), getVal?_setVal_ne _ _ _ _ (by decide)]

theorem idInt_mutatePost (p data : Dict) : idInt (mutatePost p data) = idInt p := by
  unfold idInt
  rw [getVal?_mutatePost_id]

theorem find?_middle (pre rest : List Dict) (p : Dict) (pred : Dict → Bool)
    (hpre : ∀ q ∈ pre, pred q = false) (hp : pred p = true) :
    (pre ++ p :: rest).find? pred = some p := by
  induction pre with
  | nil => simp [List.find?, hp]
  | cons q qs ih =>
    have hq : pred q = false := hpre q (by simp)
    simp only [List.cons_append, List.find?, hq]
    exact ih (fun x hx => hpre x (by simp [hx]))

theorem replaceFirst_middle (pre rest : List Dict) (p x : Dict) (pred : Dict → Bool)
    (hpre : ∀ q ∈ pre, pred q = false) (hp : pred p = true) :
    replaceFirst (pre ++ p :: rest) pred x = pre ++ x :: rest := by
  induction pre with
  | nil => simp [replaceFirst, hp]
  | cons q qs ih =>
    have hq : pred q = false := hpre q (by simp)
    simp only [List.cons_append, replaceFirst, hq, Bool.false_eq_true, if_false,
      List.cons.injEq, true_and]
    exact ih (fun y hy => hpre y (by simp [hy]))

theorem pyRemove_middle (pre rest : List Dict) (x : Dict) (hpre : ∀ q ∈ pre, q ≠ x) :
    pyRemove (pre ++ x :: rest) x = pre ++ rest := by
  induction pre with
  | nil => simp [pyRemove]
  | cons q qs ih =>
    have hq : q ≠ x := hpre q (by simp)
    simp only [List.cons_append, pyRemove, if_neg hq, List.cons.injEq, true_and]
    exact ih (fun y hy => hpre y (by simp [hy]))

theorem pyRemove_sublist (l : List Dict) (x : Dict) : (pyRemove l x).Sublist l := by
  induction l with
  | nil => exact List.Sublist.refl _
  | cons y ys ih =>
    by_cases h : y = x
    · simp only [pyRemove, if_pos h]
      exact List.sublist_cons_self y ys
    · simp only [pyRemove, if_neg h]
      exact ih.cons₂ y

theorem map_idInt_replaceFirst (l : List Dict) (pred : Dict → Bool) (x : Dict)
    (h : ∀ p, pred p = true → idInt p = idInt x) :
    (replaceFirst l pred x).map idInt = l.map idInt := by
  induction l with
  | nil => rfl
  | cons p rest ih =>
    by_cases hp : pred p
    · simp [replaceFirst, hp, (h p hp).symm]
    · simp [replaceFirst, hp, ih]

theorem mem_replaceFirst (l : List Dict) (pred : Dict → Bool) (x y : Dict)
    (hy : y ∈ replaceFirst l pred x) : y ∈ l ∨ y = x := by
  induction l with
  | nil => simp [replaceFirst] at hy
  | cons p rest ih =>
    by_cases hp : pred p
    · simp only [replaceFirst, if_pos hp] at hy
      rcases List.mem_cons.mp hy with rfl | hy
      · right; rfl
      · left; simp [hy]
    · simp only [replaceFirst, if_neg hp, List.mem_cons] at hy
      rcases hy with rfl | hy
      · left; simp
      · rcases ih hy with h | h
        · left; simp [h]
        · right; exact h

theorem maxId_le (s : List Dict) (p : Dict) (hp : p ∈ s) : idInt p ≤ maxId s := by
  induction s with
  | nil => simp at hp
  | cons q rest ih =>
    cases rest with
    | nil =>
      rcases List.mem_cons.mp hp with rfl | hp
      · exact le_refl _
      · simp at hp
    | cons r rs =>
      rcases List.mem_cons.mp hp with rfl | hp
      · exact le_max_left _ _
      · exact le_trans (ih hp) (le_max_right _ _)

theorem maxId_mem (s : List Dict) (h : s ≠ []) : maxId s ∈ s.map idInt := by
  induction s with
  | nil => exact absurd rfl h
  | cons q rest ih =>
    cases rest with
    | nil => simp [maxId]
    | cons r rs =>
      show max (idInt q) (maxId (r :: rs)) ∈ _
      rcases max_choice (idInt q) (maxId (r :: rs)) with hm | hm
      · rw [hm]; simp
      · rw [hm]
        simp only [List.map_cons]
        exact List.mem_cons_of_mem _ (ih (by simp))

/-! ### Handler characterization lemmas -/

theorem get_posts_invalid (s : List Dict) (sb : Option String) (order : String)
    (h : sb ∉ ([none, some "id", some "title", some "content"] : List (Option String))) :
    get_posts s sb order =
      ⟨.error "Invalid sort_by field. Must be \x27id\x27, \x27title\x27, or \x27content\x27.", 400⟩ := by
  rw [get_posts.eq_def, if_pos h]

theorem get_posts_none (s : List Dict) (order : String) :
    get_posts s none order = ⟨.posts s, 200⟩ := by
  rw [get_posts.eq_def, if_neg (by simp)]

theorem get_posts_valid (s : List Dict) (f : String) (order : String)
    (hf : f ∈ (["id", "title", "content"] : List String))
    (hall : s.all (fun post => hasField post f) = true) :
    get_posts s (some f) order =
      ⟨.posts (s.mergeSort (postLe f (order == "desc"))), 200⟩ := by
  have hmem : (some f) ∈ ([none, some "id", some "title", some "content"] :
      List (Option String)) := by
    fin_cases hf <;> simp
  rw [get_posts.eq_def, if_neg (not_not_intro hmem)]
  dsimp only
  rw [if_pos hall]

theorem add_post_success (s : List Dict) (data : Dict) (ht : hasField data "title" = true)
    (hc : hasField data "content" = true) :
    add_post s data = (⟨.post (newPost s data), 201⟩, s ++ [newPost s data]) := by
  simp [add_post, ht, hc]

theorem add_post_missing (s : List Dict) (data : Dict)
    (h : ¬(hasField data "title" = true ∧ hasField data "content" = true)) :
    add_post s data =
      (⟨.errorMissing "Missing required fields"
          (["title", "content"].filter (fun field => !hasField data field)), 400⟩, s) := by
  cases ht : hasField data "title" <;> cases hc : hasField data "content"
  · simp [add_post, ht, hc]
  · simp [add_post, ht, hc]
  · simp [add_post, ht, hc]
  · exact absurd ⟨ht, hc⟩ h

theorem delete_post_found (s : List Dict) (i : Int) (p : Dict)
    (hf : s.find? (idIs i) = some p) :
    delete_post s i =
      (⟨.message ("Post with id " ++ toString i ++ " has been deleted successfully."), 200⟩,
       pyRemove s p) := by
  unfold delete_post
  rw [hf]

theorem delete_post_not_found (s : List Dict) (i : Int) (hf : s.find? (idIs i) = none) :
    delete_post s i = (⟨.error ("Post with id " ++ toString i ++ " not found"), 404⟩, s) := by
  unfold delete_post
  rw [hf]

theorem update_post_found (s : List Dict) (i : Int) (data p : Dict)
    (hf : s.find? (idIs i) = some p) :
    update_post s i data =
      (⟨.post (updatedPostBody (mutatePost p data)), 200⟩,
       replaceFirst s (idIs i) (mutatePost p data)) := by
  unfold update_post
  rw [hf]

theorem update_post_not_found (s : List Dict) (i : Int) (data : Dict)
    (hf : s.find? (idIs i) = none) :
    update_post s i data =
      (⟨.error ("Post with id " ++ toString i ++ " not found"), 404⟩, s) := by
  unfold update_post
  rw [hf]

/-! ### Stability of the modelled sort -/

theorem mergeSort_filter_key {α β : Type} [DecidableEq β] (le : α → α → Bool)
    (htrans : ∀ a b c, le a b = true → le b c = true → le a c = true)
    (htotal : ∀ a b, (le a b || le b a) = true)
    (key : α → β) (hkey : ∀ a b, key a = key b → le a b = true)
    (l : List α) (k : β) :
    (l.mergeSort le).filter (fun a => decide (key a = k)) =
      l.filter (fun a => decide (key a = k)) := by
  have hperm : ((l.mergeSort le).filter (fun a => decide (key a = k))).Perm
      (l.filter (fun a => decide (key a = k))) :=
    (List.mergeSort_perm l le).filter _
  have hpair : (l.filter (fun a => decide (key a = k))).Pairwise
      (fun a b => le a b = true) := by
    apply List.pairwise_of_forall_mem_list
    intro a ha b hb
    have hka := (List.mem_filter.mp ha).2
    have hkb := (List.mem_filter.mp hb).2
    simp only [decide_eq_true_eq] at hka hkb
    exact hkey a b (by rw [hka, hkb])
  have hsub : (l.filter (fun a => decide (key a = k))).Sublist (l.mergeSort le) :=
    List.sublist_mergeSort htrans htotal hpair (List.filter_sublist l)
  have hsub2 : (l.filter (fun a => decide (key a = k))).Sublist
      ((l.mergeSort le).filter (fun a => decide (key a = k))) := by
    have h1 := List.Sublist.filter (fun a => decide (key a = k)) hsub
    rwa [List.filter_eq_self.mpr (fun a ha => (List.mem_filter.mp ha).2)] at h1
  exact (hsub2.eq_of_length hperm.length_eq.symm).symm

/-! ### The id-uniqueness invariant -/

theorem newId_gt (s : List Dict) (p : Dict) (hp : p ∈ s) : idInt p < newId s := by
  have h1 : idInt p ≤ maxId s := maxId_le s p hp
  cases s with
  | nil => simp at hp
  | cons q rest =>
    show idInt p < maxId (q :: rest) + 1
    omega

theorem idInt_newPost (s : List Dict) (data : Dict) : idInt (newPost s data) = newId s := by
  simp [idInt, newPost, getVal?]

theorem hasIntId_newPost (s : List Dict) (data : Dict) : hasIntId (newPost s data) = true := by
  simp [hasIntId, newPost, getVal?]

/-- The invariant every reachable store satisfies: every post carries an
integer id, and the id values are pairwise distinct. -/
def storeInv (s : List Dict) : Prop :=
  (∀ p ∈ s, hasIntId p = true) ∧ (s.map idInt).Nodup

theorem storeInv_seed : storeInv seedPosts :=
  ⟨by decide, by decide⟩

theorem storeInv_add (s : List Dict) (data : Dict) (h : storeInv s) :
    storeInv (add_post s data).2 := by
  by_cases hb : hasField data "title" = true ∧ hasField data "content" = true
  · rw [add_post_success s data hb.1 hb.2]
    constructor
    · intro p hp
      rcases List.mem_append.mp hp with h1 | h1
      · exact h.1 p h1
      · rw [List.mem_singleton] at h1
        subst h1
        exact hasIntId_newPost s data
    · rw [List.map_append, List.nodup_append]
      refine ⟨h.2, by simp, ?_⟩
      intro x hx hy
      simp only [List.map_cons, List.map_nil, List.mem_cons, List.not_mem_nil, or_false] at hy
      rcases List.mem_map.mp hx with ⟨p, hp, rfl⟩
      have := newId_gt s p hp
      rw [hy, idInt_newPost] at this
      exact lt_irrefl _ this
  · rw [add_post_missing s data hb]
    exact h

theorem storeInv_delete (s : List Dict) (i : Int) (h : storeInv s) :
    storeInv (delete_post s i).2 := by
  rcases hfind : s.find? (idIs i) with _ | p
  · rw [delete_post_not_found s i hfind]
    exact h
  · rw [delete_post_found s i p hfind]
    have hsub := pyRemove_sublist s p
    exact ⟨fun q hq => h.1 q (hsub.subset hq),
           List.Nodup.sublist (hsub.map idInt) h.2⟩

theorem storeInv_update (s : List Dict) (pid : Int) (data : Dict) (h : storeInv s) :
    storeInv (update_post s pid data).2 := by
  rcases hfind : s.find? (idIs pid) with _ | p
  · rw [update_post_not_found s pid data hfind]
    exact h
  · rw [update_post_found s pid data p hfind]
    have hpid : getVal? p "id" = some (.int pid) := by
      simpa [idIs] using List.find?_some hfind
    have hidmut : idInt (mutatePost p data) = pid := by
      rw [idInt_mutatePost]
      simp [idInt, hpid]
    constructor
    · intro q hq
      rcases mem_replaceFirst _ _ _ q hq with h1 | rfl
      · exact h.1 q h1
      · simp [hasIntId, getVal?_mutatePost_id, hpid]
    · rw [map_idInt_replaceFirst]
      · exact h.2
      · intro q hq
        have hq2 : getVal? q "id" = some (.int pid) := by simpa [idIs] using hq
        rw [hidmut]
        simp [idInt, hq2]

theorem isWFPost_shape (p : Dict) (h : isWFPost p = true) :
    ∃ n t c, p = [("id", JValue.int n), ("title", JValue.str t), ("content", JValue.str c)] := by
  unfold isWFPost at h
  split at h
  · rename_i k1 n k2 t k3 c
    simp only [Bool.and_eq_true, beq_iff_eq] at h
    exact ⟨n, t, c, by rw [h.1.1, h.1.2, h.2]⟩
  · simp at h

theorem isWFPost_hasField (p : Dict) (h : isWFPost p = true) (f : String)
    (hf : f ∈ (["id", "title", "content"] : List String)) : hasField p f = true := by
  rcases isWFPost_shape p h with ⟨n, t, c, rfl⟩
  fin_cases hf <;> rfl

/-! ### Claim theorems -/

/-- C1: Id uniqueness is an invariant of every reachable store state:
starting from the seed store (ids 1 and 2), after any finite sequence of
`add_post`, `update_post`, and `delete_post` calls, every post in the
store carries an integer id and the id values are pairwise distinct
(`add_post` assigns `max(ids) + 1`, which is strictly above every
surviving id, so it never collides). -/
theorem reachable_store_ids_unique (s : List Dict) (h : Reachable s) :
    (∀ p ∈ s, hasIntId p = true) ∧ (s.map idInt).Nodup := by
  induction h with
  | seed => exact storeInv_seed
  | insert data _ ih => exact storeInv_add _ data ih
  | update post_id data _ ih => exact storeInv_update _ post_id data ih
  | delete i _ ih => exact storeInv_delete _ i ih

/-- Witness for C1, at the seed store itself. -/
theorem reachable_store_ids_unique_witness :
    (∀ p ∈ seedPosts, hasIntId p = true) ∧ ((seedPosts.map idInt).Nodup) :=
  reachable_store_ids_unique seedPosts Reachable.seed

/-- C3: For every store whose posts all carry integer ids and every
payload containing both "title" and "content", `add_post` succeeds with
status 201; the id of the new post is `newId s` (which is 1 on an empty
store and `max id + 1` otherwise, strictly above every existing id);
the new post is appended at the end with all prior posts unchanged in
value and order; and the returned post has fields in the order id,
title, content holding the title and content values of the payload. -/
theorem add_post_appends_fresh (s : List Dict) (data : Dict) (t c : JValue)
    (hids : s.all hasIntId = true)
    (ht : getVal? data "title" = some t) (hc : getVal? data "content" = some c) :
    add_post s data =
      (⟨.post [("id", .int (newId s)), ("title", t), ("content", c)], 201⟩,
       s ++ [[("id", .int (newId s)), ("title", t), ("content", c)]])
    ∧ (s = [] → newId s = 1)
    ∧ (s ≠ [] → newId s = maxId s + 1 ∧ maxId s ∈ s.map idInt ∧ ∀ p ∈ s, idInt p ≤ maxId s)
    ∧ (∀ p ∈ s, ∃ n : Int, getVal? p "id" = some (.int n) ∧ n < newId s) := by
  have ht' : hasField data "title" = true := by simp [hasField, ht]
  have hc' : hasField data "content" = true := by simp [hasField, hc]
  refine ⟨?_, ?_, ?_, ?_⟩
  · rw [add_post_success s data ht' hc']
    simp [newPost, ht, hc]
  · rintro rfl
    rfl
  · intro hne
    refine ⟨?_, maxId_mem s hne, fun p hp => maxId_le s p hp⟩
    cases s with
    | nil => exact absurd rfl hne
    | cons q rest => rfl
  · intro p hp
    have h1 := List.all_eq_true.mp hids p hp
    unfold hasIntId at h1
    rcases hgv : getVal? p "id" with _ | v
    · rw [hgv] at h1
      simp at h1
    · rcases v with n | str
      · refine ⟨n, rfl, ?_⟩
        have h2 := newId_gt s p hp
        have h3 : idInt p = n := by
          unfold idInt
          rw [hgv]
        rwa [h3] at h2
      · rw [hgv] at h1
        simp at h1

/-- Witness for C3: inserting {"title": "X", "content": "Y"} into the
seed store. -/
theorem add_post_appends_fresh_witness :
    (seedPosts.all hasIntId = true)
    ∧ (getVal? [("title", JValue.str "X"), ("content", JValue.str "Y")] "title" =
        some (JValue.str "X"))
    ∧ (add_post seedPosts [("title", JValue.str "X"), ("content", JValue.str "Y")] =
        (⟨.post [("id", .int (newId seedPosts)), ("title", JValue.str "X"),
                 ("content", JValue.str "Y")], 201⟩,
         seedPosts ++ [[("id", .int (newId seedPosts)), ("title", JValue.str "X"),
                 ("content", JValue.str "Y")]])
      ∧ (seedPosts = [] → newId seedPosts = 1)
      ∧ (seedPosts ≠ [] → newId seedPosts = maxId seedPosts + 1
          ∧ maxId seedPosts ∈ seedPosts.map idInt ∧ ∀ p ∈ seedPosts, idInt p ≤ maxId seedPosts)
      ∧ (∀ p ∈ seedPosts, ∃ n : Int, getVal? p "id" = some (.int n) ∧ n < newId seedPosts)) :=
  ⟨by decide, by decide,
   add_post_appends_fresh seedPosts [("title", JValue.str "X"), ("content", JValue.str "Y")]
     (JValue.str "X") (JValue.str "Y") (by decide) (by decide) (by decide)⟩

/-- C5: For every store containing a post with the given id (the first
match being `p`, after a prefix with no match), `delete_post` removes
exactly that post: the resulting store is the prior sequence with that
single post removed, every remaining post unchanged in value and
relative order, and the handler returns 200 with a confirmation
message. -/
theorem delete_post_removes_exactly (pre rest : List Dict) (i : Int) (p : Dict)
    (hpre : ∀ q ∈ pre, idIs i q = false) (hp : idIs i p = true) :
    delete_post (pre ++ p :: rest) i =
      (⟨.message ("Post with id " ++ toString i ++ " has been deleted successfully."), 200⟩,
       pre ++ rest) := by
  rw [delete_post_found _ _ _ (find?_middle pre rest p _ hpre hp)]
  rw [pyRemove_middle pre rest p ?hne]
  case hne =>
    intro q hq heq
    have h1 := hpre q hq
    rw [heq, hp] at h1
    exact Bool.noConfusion h1

/-- Witness for C5: deleting id 2 from the seed store. -/
theorem delete_post_removes_exactly_witness :
    ((∀ q ∈ ([[("id", JValue.int 1), ("title", JValue.str "First post"),
        ("content", JValue.str "This is the first post.")]] : List Dict), idIs 2 q = false)
      ∧ idIs 2 [("id", JValue.int 2), ("title", JValue.str "Second post"),
        ("content", JValue.str "This is the second post.")] = true)
    ∧ delete_post
        ([[("id", JValue.int 1), ("title", JValue.str "First post"),
           ("content", JValue.str "This is the first post.")]] ++
         [("id", JValue.int 2), ("title", JValue.str "Second post"),
           ("content", JValue.str "This is the second post.")] :: []) 2 =
      (⟨.message ("Post with id " ++ toString (2 : Int) ++ " has been deleted successfully."),
        200⟩,
       [[("id", JValue.int 1), ("title", JValue.str "First post"),
         ("content", JValue.str "This is the first post.")]] ++ []) :=
  ⟨⟨by decide, by decide⟩,
   delete_post_removes_exactly
     [[("id", JValue.int 1), ("title", JValue.str "First post"),
       ("content", JValue.str "This is the first post.")]] [] 2
     [("id", JValue.int 2), ("title", JValue.str "Second post"),
       ("content", JValue.str "This is the second post.")] (by decide) (by decide)⟩

/-- C4: For every store containing a post with the given id (first match
after a prefix with no match) and every payload, `update_post` replaces
the title and content of that post exactly for the keys present in the
payload and retains the prior value for absent keys; the id of the post, its
position in the sequence, and every other post are unchanged; the
updated post is returned with status 200.  Updating only the title
leaves the content unchanged, and vice versa. -/
theorem update_post_frame (pre rest : List Dict) (post_id : Int) (data : Dict)
    (t c : JValue) (hpre : ∀ q ∈ pre, idIs post_id q = false) :
    update_post (pre ++ [("id", JValue.int post_id), ("title", t), ("content", c)] :: rest)
        post_id data =
      (⟨.post [("id", JValue.int post_id),
               ("title", (getVal? data "title").getD t),
               ("content", (getVal? data "content").getD c)], 200⟩,
       pre ++ [("id", JValue.int post_id),
               ("title", (getVal? data "title").getD t),
               ("content", (getVal? data "content").getD c)] :: rest) := by
  have hp : idIs post_id
      ([("id", JValue.int post_id), ("title", t), ("content", c)] : Dict) = true := by
    simp [idIs, getVal?]
  rw [update_post_found _ _ _ _ (find?_middle pre rest _ _ hpre hp)]
  rw [replaceFirst_middle pre rest _ _ _ hpre hp]
  simp [mutatePost, updatedPostBody, setVal, getVal?]

/-- Witness for C4: updating only the title of post 2 in the seed
store (its content is retained). -/
theorem update_post_frame_witness :
    (∀ q ∈ ([[("id", JValue.int 1), ("title", JValue.str "First post"),
        ("content", JValue.str "This is the first post.")]] : List Dict), idIs 2 q = false)
    ∧ update_post
        ([[("id", JValue.int 1), ("title", JValue.str "First post"),
           ("content", JValue.str "This is the first post.")]] ++
         [("id", JValue.int 2), ("title", JValue.str "Second post"),
           ("content", JValue.str "This is the second post.")] :: []) 2
        [("title", JValue.str "New title")] =
      (⟨.post [("id", JValue.int 2),
               ("title", (getVal? [("title", JValue.str "New title")] "title").getD
                  (JValue.str "Second post")),
               ("content", (getVal? [("title", JValue.str "New title")] "content").getD
                  (JValue.str "This is the second post."))], 200⟩,
       [[("id", JValue.int 1), ("title", JValue.str "First post"),
         ("content", JValue.str "This is the first post.")]] ++
       [("id", JValue.int 2),
        ("title", (getVal? [("title", JValue.str "New title")] "title").getD
           (JValue.str "Second post")),
        ("content", (getVal? [("title", JValue.str "New title")] "content").getD
           (JValue.str "This is the second post."))] :: []) :=
  ⟨by decide,
   update_post_frame
     [[("id", JValue.int 1), ("title", JValue.str "First post"),
       ("content", JValue.str "This is the first post.")]] [] 2
     [("title", JValue.str "New title")]
     (JValue.str "Second post") (JValue.str "This is the second post.") (by decide)⟩

/-- C7: Every failing operation leaves the store exactly as it was:
`delete_post` and `update_post` with an id present in no post return
404 and the unchanged store; `add_post` with a missing required field
returns 400 and the unchanged store; `get_posts` with an invalid
sort_by returns 400 (it never writes the store at all, as its type
shows). -/
theorem failing_ops_leave_store (s : List Dict) (i pid : Int) (data : Dict)
    (sb : Option String) (order : String) :
    ((∀ p ∈ s, idIs i p = false) →
        delete_post s i = (⟨.error ("Post with id " ++ toString i ++ " not found"), 404⟩, s))
    ∧ ((∀ p ∈ s, idIs pid p = false) →
        update_post s pid data =
          (⟨.error ("Post with id " ++ toString pid ++ " not found"), 404⟩, s))
    ∧ (¬(hasField data "title" = true ∧ hasField data "content" = true) →
        (add_post s data).1.status = 400 ∧ (add_post s data).2 = s)
    ∧ (sb ∉ ([none, some "id", some "title", some "content"] : List (Option String)) →
        get_posts s sb order =
          ⟨.error "Invalid sort_by field. Must be \x27id\x27, \x27title\x27, or \x27content\x27.",
           400⟩) := by
  refine ⟨?_, ?_, ?_, ?_⟩
  · intro h
    exact delete_post_not_found s i
      (List.find?_eq_none.mpr (fun p hp => by simp [h p hp]))
  · intro h
    exact update_post_not_found s pid data
      (List.find?_eq_none.mpr (fun p hp => by simp [h p hp]))
  · intro h
    rw [add_post_missing s data h]
    exact ⟨rfl, rfl⟩
  · exact get_posts_invalid s sb order

/-- Witness for C7: id 9 matches nothing in the seed store, an empty
payload misses both fields, and sort_by "author" is invalid. -/
theorem failing_ops_leave_store_witness :
    (delete_post seedPosts 9 =
        (⟨.error ("Post with id " ++ toString (9 : Int) ++ " not found"), 404⟩, seedPosts))
    ∧ (update_post seedPosts 9 [] =
        (⟨.error ("Post with id " ++ toString (9 : Int) ++ " not found"), 404⟩, seedPosts))
    ∧ ((add_post seedPosts []).1.status = 400 ∧ (add_post seedPosts []).2 = seedPosts)
    ∧ (get_posts seedPosts (some "author") "asc" =
        ⟨.error "Invalid sort_by field. Must be \x27id\x27, \x27title\x27, or \x27content\x27.",
         400⟩) :=
  ⟨(failing_ops_leave_store seedPosts 9 9 [] (some "author") "asc").1 (by decide),
   (failing_ops_leave_store seedPosts 9 9 [] (some "author") "asc").2.1 (by decide),
   (failing_ops_leave_store seedPosts 9 9 [] (some "author") "asc").2.2.1 (by decide),
   (failing_ops_leave_store seedPosts 9 9 [] (some "author") "asc").2.2.2 (by decide)⟩

/-- C9: `add_post` fails with the MissingFields error (status 400) if
and only if "title" or "content" is absent as a key of the payload, and
the error body carries exactly the list of absent field names (in the
order title, content).  Presence alone is checked, so fields present
with empty-string values are accepted and the insert succeeds with
status 201. -/
theorem add_post_missing_fields_iff (s : List Dict) (data : Dict) :
    ((add_post s data).1.status = 400 ↔
        ¬(hasField data "title" = true ∧ hasField data "content" = true))
    ∧ (¬(hasField data "title" = true ∧ hasField data "content" = true) →
        (add_post s data).1 = ⟨.errorMissing "Missing required fields"
          (["title", "content"].filter (fun field => !hasField data field)), 400⟩)
    ∧ ((hasField data "title" = true ∧ hasField data "content" = true) →
        (add_post s data).1.status = 201) := by
  refine ⟨⟨?_, ?_⟩, ?_, ?_⟩
  · intro h400 hb
    rw [add_post_success s data hb.1 hb.2] at h400
    simp at h400
  · intro h
    rw [add_post_missing s data h]
  · intro h
    rw [add_post_missing s data h]
  · intro hb
    rw [add_post_success s data hb.1 hb.2]

/-- Witness for C9: payload with both fields present as empty strings
is accepted (201), and a payload with only "title" yields the 400 error
carrying exactly ["content"]. -/
theorem add_post_missing_fields_iff_witness :
    (((add_post seedPosts [("title", JValue.str ""), ("content", JValue.str "")]).1.status = 400
        ↔ ¬(hasField [("title", JValue.str ""), ("content", JValue.str "")] "title" = true
            ∧ hasField [("title", JValue.str ""), ("content", JValue.str "")] "content" = true))
      ∧ (add_post seedPosts [("title", JValue.str ""), ("content", JValue.str "")]).1.status
          = 201)
    ∧ (add_post seedPosts [("title", JValue.str "X")]).1 =
        ⟨.errorMissing "Missing required fields"
          (["title", "content"].filter
            (fun field => !hasField [("title", JValue.str "X")] field)), 400⟩ :=
  ⟨⟨(add_post_missing_fields_iff seedPosts
        [("title", JValue.str ""), ("content", JValue.str "")]).1,
    (add_post_missing_fields_iff seedPosts
        [("title", JValue.str ""), ("content", JValue.str "")]).2.2 (by decide)⟩,
   (add_post_missing_fields_iff seedPosts [("title", JValue.str "X")]).2.1 (by decide)⟩

/-- C10: `add_post` silently discards unrecognized payload fields: for
every payload containing "title" and "content" plus any additional keys
(including an "id" key), the stored and returned post contains exactly
the three fields id, title, content in that order, with the id assigned
by the store (`newId s`, independent of any client-supplied id) and the
title and content taken from the two named payload keys; every other
payload key is ignored. -/
theorem add_post_ignores_extra_fields (s : List Dict) (data : Dict)
    (ht : hasField data "title" = true) (hc : hasField data "content" = true) :
    (add_post s data).1 = ⟨.post (newPost s data), 201⟩
    ∧ (add_post s data).2 = s ++ [newPost s data]
    ∧ (newPost s data).map Prod.fst = ["id", "title", "content"]
    ∧ getVal? (newPost s data) "id" = some (.int (newId s))
    ∧ getVal? (newPost s data) "title" = getVal? data "title"
    ∧ getVal? (newPost s data) "content" = getVal? data "content" := by
  have he := add_post_success s data ht hc
  refine ⟨by rw [he], by rw [he], rfl, rfl, ?_, ?_⟩
  · rcases Option.isSome_iff_exists.mp (by simpa [hasField] using ht) with ⟨t, hteq⟩
    rw [hteq]
    simp [newPost, getVal?, hteq]
  · rcases Option.isSome_iff_exists.mp (by simpa [hasField] using hc) with ⟨c, hceq⟩
    rw [hceq]
    simp [newPost, getVal?, hceq]

/-- Witness for C10: a payload with a client-supplied "id" and an extra
"author" key; both are ignored. -/
theorem add_post_ignores_extra_fields_witness :
    ((add_post seedPosts [("id", JValue.int 99), ("title", JValue.str "T"),
        ("content", JValue.str "C"), ("author", JValue.str "A")]).1 =
      ⟨.post (newPost seedPosts [("id", JValue.int 99), ("title", JValue.str "T"),
        ("content", JValue.str "C"), ("author", JValue.str "A")]), 201⟩)
    ∧ ((newPost seedPosts [("id", JValue.int 99), ("title", JValue.str "T"),
        ("content", JValue.str "C"), ("author", JValue.str "A")]).map Prod.fst =
      ["id", "title", "content"])
    ∧ (getVal? (newPost seedPosts [("id", JValue.int 99), ("title", JValue.str "T"),
        ("content", JValue.str "C"), ("author", JValue.str "A")]) "id" =
      some (.int (newId seedPosts))) :=
  ⟨(add_post_ignores_extra_fields seedPosts
      [("id", JValue.int 99), ("title", JValue.str "T"),
       ("content", JValue.str "C"), ("author", JValue.str "A")] (by decide) (by decide)).1,
   (add_post_ignores_extra_fields seedPosts
      [("id", JValue.int 99), ("title", JValue.str "T"),
       ("content", JValue.str "C"), ("author", JValue.str "A")] (by decide) (by decide)).2.2.1,
   (add_post_ignores_extra_fields seedPosts
      [("id", JValue.int 99), ("title", JValue.str "T"),
       ("content", JValue.str "C"), ("author", JValue.str "A")] (by decide) (by decide)).2.2.2.1⟩

theorem pyLower_eq_empty_iff (s : String) : pyLower s = "" ↔ s = "" := by
  constructor
  · intro h
    have hd : s.data.map Char.toLower = [] := String.ext_iff.mp h
    exact String.ext (List.map_eq_nil_iff.mp hd)
  · rintro rfl
    rfl

/-- C6: For every store and every pair of query strings (absent
parameters arrive as ""), `search_posts` returns, with status 200 and
never an error, exactly those posts p such that (the title query is
empty OR its lowercase form is a substring of the lowercased title of p)
AND (the content query is empty OR its lowercase form is a substring of
the lowercased content of p), in the original store order (a filter of the
store); and concretely, searching title "first" against the seed store
returns exactly the post titled "First post". -/
theorem search_posts_matches (s : List Dict) (tq cq : String) :
    search_posts s tq cq =
      ⟨.posts (s.filter (fun p =>
        (decide (tq = "") || strInStr (pyLower tq) (pyLower (fieldStr p "title"))) &&
        (decide (cq = "") || strInStr (pyLower cq) (pyLower (fieldStr p "content"))))), 200⟩
    ∧ search_posts seedPosts "first" "" =
      ⟨.posts [[("id", JValue.int 1), ("title", JValue.str "First post"),
                ("content", JValue.str "This is the first post.")]], 200⟩ := by
  constructor
  · unfold search_posts
    rw [Response.mk.injEq]
    refine ⟨?_, rfl⟩
    rw [Body.posts.injEq]
    apply List.filter_congr
    intro p _
    by_cases htq : tq = "" <;> by_cases hcq : cq = "" <;>
      simp [htq, hcq, pyLower_eq_empty_iff]
  · decide

/-- C8: For every store in which each post carries all three fields id,
title, and content, and for every sort_by and order value, `get_posts`
returns status 400 if and only if sort_by is neither absent nor one of
"id", "title", "content"; in particular, for a valid sort_by the
"Field does not exist" (unsortable) branch is never taken. -/
theorem get_posts_400_iff (s : List Dict) (sb : Option String) (order : String)
    (hkeys : s.all
      (fun p => hasField p "id" && hasField p "title" && hasField p "content") = true) :
    (get_posts s sb order).status = 400 ↔
      sb ∉ ([none, some "id", some "title", some "content"] : List (Option String)) := by
  have hall : ∀ f ∈ (["id", "title", "content"] : List String),
      s.all (fun post => hasField post f) = true := by
    intro f hf
    rw [List.all_eq_true] at hkeys ⊢
    intro p hp
    have h1 := hkeys p hp
    simp only [Bool.and_eq_true] at h1
    fin_cases hf
    · exact h1.1.1
    · exact h1.1.2
    · exact h1.2
  constructor
  · intro h400
    by_contra hmem
    fin_cases hmem
    · rw [get_posts_none] at h400
      simp at h400
    · rw [get_posts_valid s "id" order (by simp) (hall "id" (by simp))] at h400
      simp at h400
    · rw [get_posts_valid s "title" order (by simp) (hall "title" (by simp))] at h400
      simp at h400
    · rw [get_posts_valid s "content" order (by simp) (hall "content" (by simp))] at h400
      simp at h400
  · intro hnot
    rw [get_posts_invalid s sb order hnot]

/-- Witness for C8: the seed store with an invalid sort_by value. -/
theorem get_posts_400_iff_witness :
    (seedPosts.all
      (fun p => hasField p "id" && hasField p "title" && hasField p "content") = true)
    ∧ ((get_posts seedPosts (some "nope") "asc").status = 400 ↔
        (some "nope") ∉ ([none, some "id", some "title", some "content"] :
          List (Option String))) :=
  ⟨by decide, get_posts_400_iff seedPosts (some "nope") "asc" (by decide)⟩

/-- C2: For every store of well-formed posts, every sortBy field among
"id", "title", "content" and every order string, `get_posts` succeeds
(200) with a sequence that is a permutation of the store, sorted by the
named field non-increasingly when order = "desc" and non-decreasingly
for every other order value, and stably: for every key value, the posts
carrying that key value appear in their original relative order.  The
handler returns only a response (its type carries no store), so the
store sequence itself is untouched. -/
theorem get_posts_sorted_perm_stable (s : List Dict) (f : String) (order : String)
    (hf : f ∈ (["id", "title", "content"] : List String))
    (hwf : s.all isWFPost = true) :
    ∃ l, get_posts s (some f) order = ⟨.posts l, 200⟩
      ∧ l.Perm s
      ∧ (order = "desc" →
          l.Pairwise (fun p q => JValue.le (sortKey f q) (sortKey f p) = true))
      ∧ (order ≠ "desc" →
          l.Pairwise (fun p q => JValue.le (sortKey f p) (sortKey f q) = true))
      ∧ (∀ k : JValue, l.filter (fun p => decide (sortKey f p = k)) =
          s.filter (fun p => decide (sortKey f p = k))) := by
  have hall : s.all (fun post => hasField post f) = true := by
    rw [List.all_eq_true] at hwf ⊢
    exact fun p hp => isWFPost_hasField p (hwf p hp) f hf
  refine ⟨s.mergeSort (postLe f (order == "desc")), get_posts_valid s f order hf hall,
    List.mergeSort_perm s _, ?_, ?_, ?_⟩
  · intro hdesc
    have hs := @List.sorted_mergeSort Dict (postLe f (order == "desc"))
      (postLe_trans f (order == "desc")) (postLe_total f (order == "desc")) s
    refine hs.imp ?_
    intro p q hpq
    rw [hdesc] at hpq
    simpa [postLe] using hpq
  · intro hne
    have hfalse : (order == "desc") = false := by
      rw [beq_eq_false_iff_ne]
      exact hne
    have hs := @List.sorted_mergeSort Dict (postLe f (order == "desc"))
      (postLe_trans f (order == "desc")) (postLe_total f (order == "desc")) s
    refine hs.imp ?_
    intro p q hpq
    rw [hfalse] at hpq
    exact hpq
  · intro k
    exact mergeSort_filter_key (postLe f (order == "desc"))
      (postLe_trans f (order == "desc")) (postLe_total f (order == "desc"))
      (sortKey f) (fun a b hab => postLe_of_sortKey_eq f (order == "desc") a b hab) s k

/-- Witness for C2: sorting the seed store by title, descending. -/
theorem get_posts_sorted_perm_stable_witness :
    ("title" ∈ (["id", "title", "content"] : List String))
    ∧ (seedPosts.all isWFPost = true)
    ∧ ∃ l, get_posts seedPosts (some "title") "desc" = ⟨.posts l, 200⟩
      ∧ l.Perm seedPosts
      ∧ ("desc" = "desc" →
          l.Pairwise (fun p q => JValue.le (sortKey "title" q) (sortKey "title" p) = true))
      ∧ ("desc" ≠ "desc" →
          l.Pairwise (fun p q => JValue.le (sortKey "title" p) (sortKey "title" q) = true))
      ∧ (∀ k : JValue, l.filter (fun p => decide (sortKey "title" p = k)) =
          seedPosts.filter (fun p => decide (sortKey "title" p = k))) :=
  ⟨by decide, by decide,
   get_posts_sorted_perm_stable seedPosts "title" "desc" (by decide) (by decide)⟩
